import Mathlib

/-!
Verification development for the `morpho-on-solana` web client
(`src/frontend/src/lib/anchor/client.ts`, the transaction-helper module and
`src/frontend/src/app/markets/[marketId]/page.tsx`).

The TypeScript helpers are shallowly embedded:
* byte buffers become `List Nat` (each entry a byte value),
* `BigInt` / `BN` amounts become `Nat`,
* thrown `Error` objects become `Except JsError` results, where `JsError`
  records the message and the optional `logs` property,
* the RPC connection becomes a pure map `Chain := PubKey → Option AccountInfo`,
* external address-derivation library calls (`getAssociatedTokenAddressSync`,
  `PublicKey.findProgramAddressSync`) become injected function parameters,
* `js-sha3`'s `keccak256` is implemented in full (Keccak-f[1600], rate 1088,
  original Keccak padding 0x01).
-/

namespace Morpho

/-! ## Generic JS-string helpers

`jsTrim` models `String.prototype.trim`, `splitOnChar` models
`String.prototype.split` with a single-character separator, `padEnd` models
`String.prototype.padEnd`, and `digitsToNat` models `BigInt` applied to a
string of decimal digits. -/

/-- Model of `String.prototype.trim`: drop leading and trailing whitespace. -/
def jsTrim (cs : List Char) : List Char :=
  ((cs.dropWhile Char.isWhitespace).reverse.dropWhile Char.isWhitespace).reverse

/-- Model of `str.split(sep)` for a one-character separator. -/
def splitOnChar (sep : Char) : List Char → List (List Char)
  | [] => [[]]
  | c :: cs =>
    let r := splitOnChar sep cs
    if c = sep then [] :: r
    else (c :: r.headD []) :: r.tail

/-- Model of `str.padEnd(n, c)`. -/
def padEnd (cs : List Char) (n : Nat) (c : Char) : List Char :=
  cs ++ List.replicate (n - cs.length) c

/-- Numeric value of a string of decimal digits (model of `BigInt(str)` on a
digit string; the empty list evaluates to 0 like `BigInt('0')`). -/
def digitsToNat (cs : List Char) : Nat :=
  cs.foldl (fun acc c => 10 * acc + (c.toNat - 48)) 0

/-- Deterministic matcher for the regular expression `^\d+(\.\d+)?$` used by
`parseTokenAmount`: a maximal run of digits, then either nothing or a dot
followed by one or more digits. -/
def matchesDecimal (cs : List Char) : Bool :=
  match cs.dropWhile Char.isDigit with
  | [] => !cs.isEmpty
  | c :: f => c = '.' && !(cs.takeWhile Char.isDigit).isEmpty
      && !f.isEmpty && f.all Char.isDigit

/-- Matcher for the regular expression `^\d+$` used by `parseIntegerAmount`. -/
def matchesInteger (cs : List Char) : Bool :=
  !cs.isEmpty && cs.all Char.isDigit

/-- Model of a thrown JavaScript `Error`: its `message` and the optional
`logs` property carried by transaction errors. -/
structure JsError where
  message : String
  logs : Option (List String) := none
  deriving DecidableEq, Repr

/-! ## Amount parsing (`parseTokenAmount`, `parseIntegerAmount`) -/

/-- Embedding of `parseTokenAmount(amount, decimals)` from
`src/frontend/src/lib/anchor/client.ts`:
trims, returns 0 on the empty string, validates against `^\d+(\.\d+)?$`,
splits at the dot, right-pads / truncates the fractional part to `decimals`
digits and returns `whole * 10^decimals + fraction`. -/
def parseTokenAmount (amount : String) (decimals : Nat) : Except JsError Nat :=
  let normalized := jsTrim amount.data
  if normalized.isEmpty then .ok 0
  else if !matchesDecimal normalized then .error ⟨"Invalid amount format", none⟩
  else
    let parts := splitOnChar '.' normalized
    let whole := parts.headD []
    let fraction := (parts.drop 1).headD []
    let paddedFraction := (padEnd fraction decimals '0').take decimals
    let base := 10 ^ decimals
    .ok (digitsToNat whole * base + digitsToNat paddedFraction)

/-- Embedding of `parseIntegerAmount(amount)`: trims, validates against
`^\d+$`, returns the integer value. -/
def parseIntegerAmount (amount : String) : Except JsError Nat :=
  let normalized := jsTrim amount.data
  if !matchesInteger normalized then .error ⟨"Invalid integer amount", none⟩
  else .ok (digitsToNat normalized)

example : parseTokenAmount "1.5" 6 = .ok 1500000 := rfl
example : parseTokenAmount "" 9 = .ok 0 := rfl
example : parseTokenAmount "100.00" 6 = .ok 100000000 := rfl
example : parseTokenAmount "abc" 4 = .error ⟨"Invalid amount format", none⟩ := rfl
example : parseTokenAmount "1.2345678" 6 = .ok 1234567 := rfl
example : parseIntegerAmount "1.5" = .error ⟨"Invalid integer amount", none⟩ := rfl
example : parseIntegerAmount "42" = .ok 42 := rfl

/-! ## Chain and account model

A Solana public key is modelled as an opaque identifier; the two token
program ids are distinct stand-ins for the real base58 constants.  The RPC
connection is modelled as a pure snapshot `Chain` mapping an address to the
account stored there (`none` when no account exists). -/

/-- Model of `PublicKey`: an opaque identifier compared by equality. -/
structure PubKey where
  key : Nat
  deriving DecidableEq, Repr

/-- Stand-in for the classic SPL token program id. -/
def TOKEN_PROGRAM_ID : PubKey := ⟨1⟩

/-- Stand-in for the Token-2022 program id. -/
def TOKEN_2022_PROGRAM_ID : PubKey := ⟨2⟩

/-- Stand-in for `SystemProgram.programId`. -/
def systemProgramId : PubKey := ⟨3⟩

/-- The part of `connection.getAccountInfo`'s result the client inspects. -/
structure AccountInfo where
  owner : PubKey
  deriving DecidableEq, Repr

/-- Snapshot of on-chain state: `connection.getAccountInfo` as a pure map. -/
abbrev Chain := PubKey → Option AccountInfo

/-- The instructions the supply flow can assemble, with the parameters the
client passes when building each one. -/
inductive Instr where
  | createAta (payer address owner mint tokenProgramId : PubKey)
  | createPosition (marketId : List Nat)
      (payer owner market position systemProgram : PubKey)
  | supply (marketId : List Nat) (assets minShares : Nat)
      (supplier protocolState market position onBehalfOf
        supplierTokenAccount loanVault loanMint tokenProgram : PubKey)
  deriving DecidableEq, Repr

/-- Injected model of the external address-derivation library calls:
`getAssociatedTokenAddressSync (mint owner tokenProgramId)`,
`getPositionPDA (marketId owner)`, `getProtocolStatePDA`,
`getLoanVaultPDA (marketId)`.  Each is an arbitrary pure function, matching
the deterministic call-by-value behaviour of the real derivations. -/
structure Derivations where
  ata : PubKey → PubKey → PubKey → PubKey
  position : List Nat → PubKey → PubKey
  protocolState : PubKey
  loanVault : List Nat → PubKey

/-! ## Token account and position resolution -/

/-- Embedding of `getTokenProgramId(connection, mint)`: absent mint account
is fatal; a mint owned by the Token-2022 program resolves to it, any other
owner resolves to the classic token program. -/
def getTokenProgramId (connection : Chain) (mint : PubKey) :
    Except JsError PubKey :=
  match connection mint with
  | none => .error ⟨"Mint account not found", none⟩
  | some info =>
    if info.owner = TOKEN_2022_PROGRAM_ID then .ok TOKEN_2022_PROGRAM_ID
    else .ok TOKEN_PROGRAM_ID

/-- Result triple of `getOrCreateAtaIx`. -/
structure AtaResult where
  address : PubKey
  tokenProgramId : PubKey
  instruction : Option Instr := none
  deriving DecidableEq, Repr

/-- Embedding of `getOrCreateAtaIx({connection, payer, owner, mint})`:
resolve the token program, derive the associated token account address, and
return a creation instruction exactly when no account exists there. -/
def getOrCreateAtaIx (connection : Chain) (pda : Derivations)
    (payer owner mint : PubKey) : Except JsError AtaResult := do
  let tokenProgramId ← getTokenProgramId connection mint
  let ata := pda.ata mint owner tokenProgramId
  match connection ata with
  | some _ => .ok ⟨ata, tokenProgramId, none⟩
  | none =>
    .ok ⟨ata, tokenProgramId, some (.createAta payer ata owner mint tokenProgramId)⟩

/-- Result pair of `ensurePositionIx`. -/
structure PositionResult where
  positionPda : PubKey
  instruction : Option Instr := none
  deriving DecidableEq, Repr

/-- Embedding of `ensurePositionIx({connection, program, marketId, market,
owner, payer})`: derive the position PDA and return a `createPosition`
instruction exactly when no account exists there. -/
def ensurePositionIx (connection : Chain) (pda : Derivations)
    (marketId : List Nat) (market owner payer : PubKey) : PositionResult :=
  let positionPda := pda.position marketId owner
  match connection positionPda with
  | some _ => ⟨positionPda, none⟩
  | none =>
    ⟨positionPda,
      some (.createPosition marketId payer owner market positionPda systemProgramId)⟩

/-! ## Transaction assembly and submission (`sendInstructions`) -/

/-- Model of `line.includes(sub)`. -/
def jsIncludes (line sub : String) : Bool :=
  line.data.tails.any (sub.data.isPrefixOf ·)

/-- Model of `line.replace(/^Program log:\s*/, '')`: strip one leading
occurrence of `Program log:` together with the whitespace that follows. -/
def stripProgramLog (line : List Char) : List Char :=
  if ("Program log:".data).isPrefixOf line then
    (line.drop ("Program log:".data.length)).dropWhile Char.isWhitespace
  else line

/-- Embedding of `formatTxLogSummary(logs)`: pick the line naming the
executing instruction and the first line matching one of the program-error
markers, clean both and join them with a separator. -/
def formatTxLogSummary (logs : Option (List String)) : Option String :=
  match logs with
  | none => none
  | some l =>
    if l.isEmpty then none
    else
      let instructionLine := l.find? (fun line =>
        jsIncludes line "Program log: Instruction:")
      let anchorLine :=
        (l.find? (fun line => jsIncludes line "AnchorError")).orElse (fun _ =>
          (l.find? (fun line => jsIncludes line "Error Code")).orElse (fun _ =>
            l.find? (fun line => jsIncludes line "custom program error")))
      let parts := ([instructionLine, anchorLine].filterMap id).map (fun line =>
        String.mk (jsTrim (stripProgramLog line.data)))
      if parts.isEmpty then none
      else some (String.intercalate " | " parts)

/-- The signing/submission collaborator (`provider.sendAndConfirm` over the
wallet and RPC): given the final instruction list, it either returns a
signature or throws. -/
abbrev Network (α : Type) := List α → Except JsError String

/-- The pure assembly step of `sendInstructions`: drop absent instructions,
fail when none remain. -/
def assembleTx {α : Type} (instructions : List (Option α)) :
    Except JsError (List α) :=
  let tx := instructions.filterMap id
  if tx.isEmpty then .error ⟨"No instructions to send", none⟩
  else .ok tx

/-- The catch-block of `sendInstructions`: append the log summary to the
error message unless it is absent or already contained in it. -/
def annotateTxError (error : JsError) : JsError :=
  match formatTxLogSummary error.logs with
  | none => error
  | some summary =>
    if jsIncludes error.message summary then error
    else { error with message := error.message ++ " | " ++ summary }

/-- Outcome handling of `sendInstructions`: successes pass through, failures
are annotated and rethrown. -/
def handleTxResult (r : Except JsError String) : Except JsError String :=
  match r with
  | .ok sig => .ok sig
  | .error e => .error (annotateTxError e)

/-- Embedding of `sendInstructions({connection, wallet, instructions})`:
filter out absent instructions, fail on an empty transaction before any
network call, otherwise delegate to the collaborator and post-process the
outcome. -/
def sendInstructions {α : Type} (network : Network α)
    (instructions : List (Option α)) : Except JsError String :=
  match assembleTx instructions with
  | .error e => .error e
  | .ok tx => handleTxResult (network tx)

/-! ## The supply flow (`SupplyTab.handleSupply`) -/

/-- The instruction list assembled by `SupplyTab.handleSupply` in
`src/frontend/src/app/markets/[marketId]/page.tsx` before it is handed to
`sendInstructions`; `none` models the early `if (!amount) return`. -/
def handleSupplyIxs (connection : Chain) (pda : Derivations) (wallet : PubKey)
    (amount : String) (loanMint : PubKey) (loanDecimals : Nat)
    (marketId : List Nat) (marketKey : PubKey) :
    Option (Except JsError (List (Option Instr))) :=
  if amount = "" then none
  else some do
    let ataRes ← getOrCreateAtaIx connection pda wallet wallet loanMint
    let posRes := ensurePositionIx connection pda marketId marketKey wallet wallet
    let assets ← parseTokenAmount amount loanDecimals
    let minShares ← parseIntegerAmount "0"
    let supplyIx := Instr.supply marketId assets minShares wallet
      pda.protocolState marketKey posRes.positionPda wallet ataRes.address
      (pda.loanVault marketId) loanMint ataRes.tokenProgramId
    pure [ataRes.instruction, posRes.instruction, some supplyIx]

/-- The full supply flow: assemble the instruction list and submit it. -/
def handleSupply (network : Network Instr) (connection : Chain)
    (pda : Derivations) (wallet : PubKey) (amount : String) (loanMint : PubKey)
    (loanDecimals : Nat) (marketId : List Nat) (marketKey : PubKey) :
    Option (Except JsError String) :=
  (handleSupplyIxs connection pda wallet amount loanMint loanDecimals
      marketId marketKey).map
    (fun r => r.bind (sendInstructions network))

/-! ## Keccak-256 (the `js-sha3` collaborator of `calculateMarketId`)

Keccak-f[1600] over a state of 25 lanes of 64 bits, rate 1088 bits
(136 bytes), original Keccak padding (domain byte 0x01), 256-bit output.
Lanes are `Nat`s kept below `2^64`; a message is a list of byte values. -/

/-- 64-bit mask. -/
def mask64 : Nat := 2 ^ 64 - 1

/-- Rotate a 64-bit lane left by `n` bits. -/
def rotl64 (x n : Nat) : Nat :=
  ((x <<< n) ||| (x >>> (64 - n))) &&& mask64

/-- Read lane `i` of a 25-lane state. -/
def getLane (s : List Nat) (i : Nat) : Nat := s.getD i 0

/-- The theta step of Keccak-f. -/
def theta (s : List Nat) : List Nat :=
  (List.range 25).map fun i =>
    let c := fun j =>
      getLane s j ^^^ getLane s (j + 5) ^^^ getLane s (j + 10) ^^^
        getLane s (j + 15) ^^^ getLane s (j + 20)
    getLane s i ^^^ c ((i % 5 + 4) % 5) ^^^ rotl64 (c ((i % 5 + 1) % 5)) 1

/-- Rotation offsets of the rho step, indexed by lane `x + 5*y`, generated
as in the Keccak specification: walking the pi trajectory from lane (1,0),
the offset placed at step `t` is the triangular number `(t+1)(t+2)/2 mod 64`
(lane 0 keeps offset 0). -/
def rhoOffsets : List Nat :=
  ((List.range 24).foldl
    (fun st t =>
      let tbl := st.1
      let x := st.2.1
      let y := st.2.2
      let idx := x + 5 * y
      (tbl.take idx ++ ((t + 1) * (t + 2) / 2 % 64) :: tbl.drop (idx + 1),
        y, (2 * x + 3 * y) % 5))
    (List.replicate 25 0, 1, 0)).1

/-- The combined rho and pi steps: destination lane `x + 5*y` receives the
rotated source lane `(x + 3*y) % 5 + 5*x`. -/
def rhoPiStep (s : List Nat) : List Nat :=
  (List.range 25).map fun i =>
    let src := (i % 5 + 3 * (i / 5)) % 5 + 5 * (i % 5)
    rotl64 (getLane s src) (getLane rhoOffsets src)

/-- The chi step, mixing lanes within each row. -/
def chi (s : List Nat) : List Nat :=
  (List.range 25).map fun i =>
    let x := i % 5
    let row := 5 * (i / 5)
    getLane s i ^^^
      ((getLane s (row + (x + 1) % 5) ^^^ mask64) &&&
        getLane s (row + (x + 2) % 5))

/-- The iota step: mix the round constant into lane 0. -/
def iota (rc : Nat) (s : List Nat) : List Nat :=
  match s with
  | [] => []
  | a :: rest => (a ^^^ rc) :: rest

/-- The 24 Keccak round constants (decimal values of the standard table
0x0000000000000001, 0x0000000000008082, ..., 0x8000000080008008). -/
def keccakRC : List Nat :=
  [1, 32898,
   9223372036854808714, 9223372039002292224,
   32907, 2147483649,
   9223372039002292353, 9223372036854808585,
   138, 136,
   2147516425, 2147483658,
   2147516555, 9223372036854775947,
   9223372036854808713, 9223372036854808579,
   9223372036854808578, 9223372036854775936,
   32778, 9223372039002259466,
   9223372039002292353, 9223372036854808704,
   2147483649, 9223372039002292232]

/-- One round of Keccak-f[1600]. -/
def keccakRound (s : List Nat) (rc : Nat) : List Nat :=
  iota rc (chi (rhoPiStep (theta s)))

/-- The full Keccak-f[1600] permutation. -/
def keccakF (s : List Nat) : List Nat :=
  keccakRC.foldl keccakRound s

/-- Little-endian value of a byte list. -/
def leValue (bs : List Nat) : Nat :=
  bs.foldr (fun b acc => b + 256 * acc) 0

/-- `k`-byte little-endian encoding of `n` (model of
`new BN(n).toArrayLike(Buffer, 'le', k)` for `n < 256^k`). -/
def leBytes : Nat → Nat → List Nat
  | 0, _ => []
  | k + 1, n => n % 256 :: leBytes k (n / 256)

/-- XOR one 136-byte rate block into the first 17 lanes of the state. -/
def absorbBlock (s : List Nat) (block : List Nat) : List Nat :=
  (List.range 25).map fun i =>
    if i < 17 then getLane s i ^^^ leValue ((block.drop (8 * i)).take 8)
    else getLane s i

/-- Absorb a padded message, one 136-byte block at a time. -/
def absorbBlocks (s : List Nat) (msg : List Nat) : List Nat :=
  if h : msg = [] then s
  else absorbBlocks (keccakF (absorbBlock s (msg.take 136))) (msg.drop 136)
termination_by msg.length
decreasing_by
  simp only [List.length_drop]
  exact Nat.sub_lt (List.length_pos.mpr h) (by decide)

/-- Original Keccak padding `pad10*1` with domain byte 0x01, to a multiple
of the 136-byte rate. -/
def keccakPad (msg : List Nat) : List Nat :=
  let q := 136 - msg.length % 136
  if q = 1 then msg ++ [0x81]
  else msg ++ 0x01 :: (List.replicate (q - 2) 0 ++ [0x80])

/-- Squeeze the first 32 output bytes (lanes 0–3, little-endian). -/
def squeeze (s : List Nat) : List Nat :=
  leBytes 8 (getLane s 0) ++ leBytes 8 (getLane s 1) ++
    leBytes 8 (getLane s 2) ++ leBytes 8 (getLane s 3)

/-- Keccak-256 of a byte list (the `keccak256` export of `js-sha3`). -/
def keccak256 (msg : List Nat) : List Nat :=
  squeeze (absorbBlocks (List.replicate 25 0) (keccakPad msg))

/-! ## Market id (`calculateMarketId`) -/

/-- Embedding of `calculateMarketId(collateralMint, loanMint, oracle, irm,
lltv)` from `src/frontend/src/lib/anchor/client.ts`: concatenate the four
key buffers and the 8-byte little-endian LLTV, then hash with Keccak-256. -/
def calculateMarketId (collateralMint loanMint oracle irm : List Nat)
    (lltv : Nat) : List Nat :=
  let lltvBuffer := leBytes 8 lltv
  let data := collateralMint ++ loanMint ++ oracle ++ irm ++ lltvBuffer
  keccak256 data

/-! ## Specification-side definitions

These state, independently of the embedded code, what the spec's sentences
mean: the declarative reading of the two regular expressions, the rational
value denoted by a decimal string, and truncation to a given precision. -/

/-- Declarative semantics of `^\d+(\.\d+)?$`: one or more digits, optionally
followed by a dot and one or more digits. -/
def DecimalShape (cs : List Char) : Prop :=
  (cs ≠ [] ∧ ∀ c ∈ cs, c.isDigit) ∨
  (∃ w f, cs = w ++ '.' :: f ∧ w ≠ [] ∧ (∀ c ∈ w, c.isDigit) ∧
    f ≠ [] ∧ (∀ c ∈ f, c.isDigit))

/-- Declarative semantics of `^\d+$`. -/
def IntegerShape (cs : List Char) : Prop :=
  cs ≠ [] ∧ ∀ c ∈ cs, c.isDigit

/-- `s` trims to the decimal numeral with whole part `w` and fractional part
`f` (`f = []` meaning the numeral has no dot at all). -/
def TrimsTo (s : String) (w f : List Char) : Prop :=
  w ≠ [] ∧ (∀ c ∈ w, c.isDigit) ∧ (∀ c ∈ f, c.isDigit) ∧
    ((f = [] ∧ jsTrim s.data = w) ∨ (f ≠ [] ∧ jsTrim s.data = w ++ '.' :: f))

instance (s : String) (w f : List Char) : Decidable (TrimsTo s w f) := by
  unfold TrimsTo
  infer_instance

/-- The rational value denoted by whole part `w` and fractional part `f`. -/
def decValue (w f : List Char) : ℚ :=
  (digitsToNat w : ℚ) + (digitsToNat f : ℚ) / 10 ^ f.length

/-- A rational truncated (towards minus infinity) to `d` fractional digits,
returned scaled by `10 ^ d`. -/
def truncValue (d : Nat) (q : ℚ) : ℤ := ⌊q * 10 ^ d⌋

/-! ## Helper lemmas: characters, digits and folds -/

theorem digit_sub_lt (c : Char) (h : c.isDigit = true) : c.toNat - 48 < 10 := by
  simp only [Char.isDigit, Bool.and_eq_true, decide_eq_true_eq, ge_iff_le,
    UInt32.le_def, BitVec.le_def] at h
  have ha : ((48 : UInt32).toBitVec).toNat = 48 := rfl
  have hb : ((57 : UInt32).toBitVec).toNat = 57 := rfl
  rw [ha, hb] at h
  simp only [Char.toNat, UInt32.toNat]
  omega

theorem not_digit_dot : ('.').isDigit = false := by decide

theorem digitsToNat_foldl (cs : List Char) (a : Nat) :
    cs.foldl (fun acc c => 10 * acc + (c.toNat - 48)) a =
      a * 10 ^ cs.length + digitsToNat cs := by
  induction cs generalizing a with
  | nil => simp [digitsToNat]
  | cons c cs ih =>
    simp only [List.foldl_cons, digitsToNat, List.length_cons]
    rw [ih, ih (10 * 0 + (c.toNat - 48))]
    ring

theorem digitsToNat_append (a b : List Char) :
    digitsToNat (a ++ b) = digitsToNat a * 10 ^ b.length + digitsToNat b := by
  simp only [digitsToNat, List.foldl_append]
  rw [digitsToNat_foldl]
  rfl

theorem digitsToNat_replicate_zero (k : Nat) :
    digitsToNat (List.replicate k '0') = 0 := by
  induction k with
  | zero => rfl
  | succ n ih =>
    simp only [List.replicate_succ, digitsToNat, List.foldl_cons]
    simpa [digitsToNat] using ih

theorem digitsToNat_lt (cs : List Char) (h : ∀ c ∈ cs, c.isDigit) :
    digitsToNat cs < 10 ^ cs.length := by
  induction cs with
  | nil => simp [digitsToNat]
  | cons c cs ih =>
    have hc := digit_sub_lt c (h c (by simp))
    have ihh := ih (fun x hx => h x (by simp [hx]))
    simp only [digitsToNat, List.foldl_cons, List.length_cons]
    rw [digitsToNat_foldl]
    have : (10 * 0 + (c.toNat - 48)) * 10 ^ cs.length ≤ 9 * 10 ^ cs.length :=
      Nat.mul_le_mul_right _ (by omega)
    calc (10 * 0 + (c.toNat - 48)) * 10 ^ cs.length + digitsToNat cs
        < (10 * 0 + (c.toNat - 48)) * 10 ^ cs.length + 10 ^ cs.length := by omega
      _ ≤ 9 * 10 ^ cs.length + 10 ^ cs.length := by omega
      _ = 10 ^ (cs.length + 1) := by ring

/-! ## Helper lemmas: takeWhile, dropWhile, splitOnChar -/

theorem dropWhile_append_all {p : Char → Bool} (w l : List Char)
    (h : ∀ c ∈ w, p c) : (w ++ l).dropWhile p = l.dropWhile p := by
  induction w with
  | nil => rfl
  | cons c cs ih =>
    simp only [List.cons_append, List.dropWhile_cons, h c (by simp)]
    exact ih (fun x hx => h x (by simp [hx]))

theorem takeWhile_append_all {p : Char → Bool} (w l : List Char)
    (h : ∀ c ∈ w, p c) : (w ++ l).takeWhile p = w ++ l.takeWhile p := by
  induction w with
  | nil => rfl
  | cons c cs ih =>
    simp only [List.cons_append, List.takeWhile_cons, h c (by simp)]
    simp [ih (fun x hx => h x (by simp [hx]))]

theorem splitOnChar_not_mem (sep : Char) (cs : List Char) (h : sep ∉ cs) :
    splitOnChar sep cs = [cs] := by
  induction cs with
  | nil => rfl
  | cons c rest ih =>
    have hc : ¬ c = sep := fun hh => h (by simp [hh])
    simp only [splitOnChar, if_neg hc, ih (fun hh => h (by simp [hh]))]
    rfl

theorem splitOnChar_append (sep : Char) (w f : List Char) (hw : sep ∉ w) :
    splitOnChar sep (w ++ sep :: f) = w :: splitOnChar sep f := by
  induction w with
  | nil => simp [splitOnChar]
  | cons c rest ih =>
    have hc : ¬ c = sep := fun hh => hw (by simp [hh])
    have ihh := ih (fun hh => hw (by simp [hh]))
    show (if c = sep then [] :: splitOnChar sep (rest ++ sep :: f)
      else (c :: (splitOnChar sep (rest ++ sep :: f)).headD []) ::
        (splitOnChar sep (rest ++ sep :: f)).tail) = _
    rw [if_neg hc, ihh]
    rfl

theorem digits_not_dot {w : List Char} (h : ∀ c ∈ w, c.isDigit) : '.' ∉ w :=
  fun hm => by simpa using h _ hm

/-! ## Regex matchers agree with their declarative reading -/

theorem matchesDecimal_iff (cs : List Char) :
    matchesDecimal cs = true ↔ DecimalShape cs := by
  constructor
  · intro h
    have hsplit := (List.takeWhile_append_dropWhile (p := Char.isDigit) (l := cs))
    unfold matchesDecimal at h
    rcases hd : cs.dropWhile Char.isDigit with _ | ⟨c, f⟩
    · rw [hd] at h
      simp only [Bool.not_eq_true', List.isEmpty_eq_false] at h
      left
      refine ⟨h, fun x hx => ?_⟩
      have hx2 : x ∈ cs.takeWhile Char.isDigit := by
        rw [← hsplit, hd, List.append_nil] at hx
        exact hx
      exact List.mem_takeWhile_imp hx2
    · rw [hd] at h
      simp only [Bool.and_eq_true, decide_eq_true_eq, Bool.not_eq_true',
        List.isEmpty_eq_false, List.all_eq_true] at h
      obtain ⟨⟨⟨hcdot, hw⟩, hf⟩, hfd⟩ := h
      right
      refine ⟨cs.takeWhile Char.isDigit, f, ?_, hw,
        fun x hx => List.mem_takeWhile_imp hx, hf, hfd⟩
      rw [← hcdot, ← hd]
      exact hsplit.symm
  · intro h
    rcases h with ⟨hne, hall⟩ | ⟨w, f, hcs, hw, hwd, hf, hfd⟩
    · have hdrop : cs.dropWhile Char.isDigit = [] := by
        have := dropWhile_append_all (p := Char.isDigit) cs [] hall
        simpa using this
      unfold matchesDecimal
      rw [hdrop]
      simpa using hne
    · have hdrop : cs.dropWhile Char.isDigit = '.' :: f := by
        rw [hcs, dropWhile_append_all _ _ hwd]
        simp [List.dropWhile_cons, not_digit_dot]
      have htake : cs.takeWhile Char.isDigit = w := by
        rw [hcs, takeWhile_append_all _ _ hwd]
        simp [List.takeWhile_cons, not_digit_dot]
      unfold matchesDecimal
      rw [hdrop, htake]
      simp [hf, hw, List.all_eq_true, List.isEmpty_eq_false]
      exact fun x hx => hfd x hx

theorem matchesInteger_iff (cs : List Char) :
    matchesInteger cs = true ↔ IntegerShape cs := by
  unfold matchesInteger IntegerShape
  simp [List.all_eq_true, List.isEmpty_eq_false]

/-! ## Evaluation of `parseTokenAmount` on well-formed input -/

theorem parseTokenAmount_eval (s : String) (w f : List Char) (d : Nat)
    (h : TrimsTo s w f) :
    parseTokenAmount s d =
      .ok (digitsToNat w * 10 ^ d + digitsToNat ((padEnd f d '0').take d)) := by
  obtain ⟨hw, hwd, hfd, hcase⟩ := h
  rcases hcase with ⟨hfe, htrim⟩ | ⟨hfne, htrim⟩
  · subst hfe
    have h1 : w.isEmpty = false := List.isEmpty_eq_false.mpr hw
    have h2 : matchesDecimal w = true := (matchesDecimal_iff w).mpr (Or.inl ⟨hw, hwd⟩)
    have h3 : splitOnChar '.' w = [w] :=
      splitOnChar_not_mem '.' w (digits_not_dot hwd)
    simp only [parseTokenAmount, htrim, h1, h2, h3, Bool.not_true,
      Bool.false_eq_true, if_false, List.headD, List.drop]
  · have h1 : (w ++ '.' :: f).isEmpty = false := by simp
    have h2 : matchesDecimal (w ++ '.' :: f) = true :=
      (matchesDecimal_iff _).mpr (Or.inr ⟨w, f, rfl, hw, hwd, hfne, hfd⟩)
    have h3 : splitOnChar '.' (w ++ '.' :: f) = [w, f] := by
      rw [splitOnChar_append '.' w f (digits_not_dot hwd),
        splitOnChar_not_mem '.' f (digits_not_dot hfd)]
    simp only [parseTokenAmount, htrim, h1, h2, h3, Bool.not_true,
      Bool.false_eq_true, if_false, List.headD, List.drop]

/-- The padded-and-truncated fractional digits equal the floor of the
fractional value scaled by `10 ^ d`, as a natural-number division. -/
theorem frac_trunc (f : List Char) (d : Nat) (hfd : ∀ c ∈ f, c.isDigit) :
    digitsToNat ((padEnd f d '0').take d) =
      digitsToNat f * 10 ^ d / 10 ^ f.length := by
  have h10 : (0:ℕ) < 10 ^ f.length := Nat.pos_pow_of_pos _ (by norm_num)
  rcases le_or_lt f.length d with h | h
  · have hpe : (padEnd f d '0').take d = f ++ List.replicate (d - f.length) '0' := by
      unfold padEnd
      apply List.take_of_length_le
      simp only [List.length_append, List.length_replicate]
      omega
    rw [hpe, digitsToNat_append, digitsToNat_replicate_zero, List.length_replicate,
      Nat.add_zero]
    rw [show (10:ℕ) ^ d = 10 ^ f.length * 10 ^ (d - f.length) by
      rw [← pow_add]; congr 1; omega]
    rw [show digitsToNat f * (10 ^ f.length * 10 ^ (d - f.length)) =
      digitsToNat f * 10 ^ (d - f.length) * 10 ^ f.length by ring]
    rw [Nat.mul_div_cancel _ h10]
  · have hpe : (padEnd f d '0').take d = f.take d := by
      unfold padEnd
      rw [Nat.sub_eq_zero_of_le (Nat.le_of_lt h)]
      simp
    rw [hpe]
    have hdec : f.take d ++ f.drop d = f := List.take_append_drop d f
    have hF : digitsToNat f =
        digitsToNat (f.take d) * 10 ^ (f.drop d).length + digitsToNat (f.drop d) := by
      conv_lhs => rw [← hdec]
      exact digitsToNat_append _ _
    have hR : digitsToNat (f.drop d) < 10 ^ (f.drop d).length :=
      digitsToNat_lt _ (fun c hc => hfd c (List.mem_of_mem_drop hc))
    have hld : (f.drop d).length = f.length - d := List.length_drop d f
    have hLd : (0:ℕ) < 10 ^ (f.length - d) := Nat.pos_pow_of_pos _ (by norm_num)
    have hsplitpow : (10:ℕ) ^ f.length = 10 ^ (f.length - d) * 10 ^ d := by
      rw [← pow_add]; congr 1; omega
    rw [hsplitpow, Nat.mul_div_mul_right _ _ (Nat.pos_pow_of_pos d (by norm_num))]
    rw [hF, hld]
    rw [show digitsToNat (f.take d) * 10 ^ (f.length - d) =
      10 ^ (f.length - d) * digitsToNat (f.take d) by ring]
    rw [Nat.mul_add_div hLd]
    rw [Nat.div_eq_of_lt (by rw [← hld]; exact hR), Nat.add_zero]

/-- Truncating the rational value of a decimal numeral to `d` fractional
digits gives the whole part scaled plus the scaled-and-floored fraction. -/
theorem truncValue_decValue (w f : List Char) (d : Nat) :
    truncValue d (decValue w f) =
      ((digitsToNat w * 10 ^ d + digitsToNat f * 10 ^ d / 10 ^ f.length : ℕ) : ℤ) := by
  unfold truncValue decValue
  have hexp : ((digitsToNat w : ℚ) + (digitsToNat f : ℚ) / 10 ^ f.length) * 10 ^ d
      = (((digitsToNat w * 10 ^ d : ℕ) : ℤ) : ℚ) +
        ((digitsToNat f * 10 ^ d : ℕ) : ℚ) / ((10 ^ f.length : ℕ) : ℚ) := by
    push_cast
    ring
  rw [hexp, Int.floor_int_add, Rat.floor_natCast_div_natCast]
  push_cast [Int.ofNat_div]
  ring

/-- `parseTokenAmount` computes exactly the truncation of the denoted
rational value. -/
theorem parseTokenAmount_trunc (s : String) (w f : List Char) (d : Nat)
    (h : TrimsTo s w f) :
    parseTokenAmount s d = .ok (truncValue d (decValue w f)).toNat := by
  rw [parseTokenAmount_eval s w f d h, frac_trunc f d h.2.2.1,
    truncValue_decValue, Int.toNat_natCast]

theorem parseTokenAmount_invalid (s : String) (d : Nat)
    (hne : jsTrim s.data ≠ [])
    (hm : matchesDecimal (jsTrim s.data) = false) :
    parseTokenAmount s d = .error ⟨"Invalid amount format", none⟩ := by
  simp [parseTokenAmount, hm, List.isEmpty_eq_false.mpr hne]

theorem parseIntegerAmount_invalid (s : String)
    (hm : matchesInteger (jsTrim s.data) = false) :
    parseIntegerAmount s = .error ⟨"Invalid integer amount", none⟩ := by
  simp [parseIntegerAmount, hm]

/-! ## Helper lemmas: little-endian bytes and hash output length -/

theorem leBytes_length (k : Nat) : ∀ n, (leBytes k n).length = k := by
  induction k with
  | zero => intro n; rfl
  | succ m ih => intro n; simp [leBytes, ih]

theorem leValue_leBytes (k : Nat) : ∀ n, n < 256 ^ k → leValue (leBytes k n) = n := by
  induction k with
  | zero =>
    intro n h
    simp only [pow_zero, Nat.lt_one_iff] at h
    simp [h, leBytes, leValue]
  | succ m ih =>
    intro n h
    have hn : n / 256 < 256 ^ m := by
      apply (Nat.div_lt_iff_lt_mul (by norm_num)).mpr
      calc n < 256 ^ (m + 1) := h
        _ = 256 ^ m * 256 := by rw [pow_succ]
    have := ih (n / 256) hn
    simp only [leBytes, leValue, List.foldr_cons]
    have hrw : (leBytes m (n / 256)).foldr (fun b acc => b + 256 * acc) 0 =
        leValue (leBytes m (n / 256)) := rfl
    rw [hrw, this]
    omega

theorem squeeze_length (s : List Nat) : (squeeze s).length = 32 := by
  simp [squeeze, leBytes_length, List.length_append]

/-! ## Claim theorems -/

/-- C1: for every four 32-byte public keys and every LLTV below `2^64`,
`calculateMarketId` returns exactly the 32-byte Keccak-256 hash of
collateralMint ++ loanMint ++ oracle ++ irm ++ (lltv as 8-byte little-endian):
the hash input is that concatenation in that order, the output has 32 bytes,
and the appended buffer is the faithful 8-byte little-endian encoding. -/
theorem calculateMarketId_spec (collateralMint loanMint oracle irm : List Nat)
    (lltv : Nat) (hc : collateralMint.length = 32) (hl : loanMint.length = 32)
    (ho : oracle.length = 32) (hi : irm.length = 32) (hv : lltv < 2 ^ 64) :
    calculateMarketId collateralMint loanMint oracle irm lltv =
      keccak256 (collateralMint ++ loanMint ++ oracle ++ irm ++ leBytes 8 lltv) ∧
    (calculateMarketId collateralMint loanMint oracle irm lltv).length = 32 ∧
    (leBytes 8 lltv).length = 8 ∧
    leValue (leBytes 8 lltv) = lltv := by
  have h256 : (256 : ℕ) ^ 8 = 2 ^ 64 := by norm_num
  refine ⟨rfl, ?_, leBytes_length 8 lltv, leValue_leBytes 8 lltv (h256 ▸ hv)⟩
  simp only [calculateMarketId, keccak256]
  exact squeeze_length _

theorem calculateMarketId_spec_witness :
    calculateMarketId (List.replicate 32 7) (List.replicate 32 8)
        (List.replicate 32 9) (List.replicate 32 10) 860 =
      keccak256 (List.replicate 32 7 ++ List.replicate 32 8 ++
        List.replicate 32 9 ++ List.replicate 32 10 ++ leBytes 8 860) ∧
    (calculateMarketId (List.replicate 32 7) (List.replicate 32 8)
      (List.replicate 32 9) (List.replicate 32 10) 860).length = 32 ∧
    (leBytes 8 860).length = 8 ∧
    leValue (leBytes 8 860) = 860 :=
  calculateMarketId_spec _ _ _ _ 860 (by decide) (by decide) (by decide)
    (by decide) (by decide)

/-- C4: when every entry of the instruction list is absent (including the
empty list), `sendInstructions` fails with the empty-transaction error, with
the same result for every possible network collaborator — the collaborator
is never invoked. -/
theorem sendInstructions_empty {α : Type} (instructions : List (Option α))
    (h : ∀ x ∈ instructions, x = none) :
    ∀ network : Network α,
      sendInstructions network instructions =
        .error ⟨"No instructions to send", none⟩ := by
  intro network
  have hfm : instructions.filterMap id = [] :=
    List.filterMap_eq_nil_iff.mpr (fun a ha => h a ha)
  unfold sendInstructions assembleTx
  rw [hfm]
  rfl

theorem sendInstructions_empty_witness :
    sendInstructions (fun _ => .ok "sig") ([none, none] : List (Option Nat)) =
      .error ⟨"No instructions to send", none⟩ :=
  sendInstructions_empty [none, none] (by decide) _

/-- C5: `sendInstructions` hands the network collaborator exactly the
present instructions in their original relative order; in particular
`[undefined, ixA, undefined, ixB]` is submitted as `[ixA, ixB]`. -/
theorem sendInstructions_order {α : Type} (instructions : List (Option α))
    (h : instructions.filterMap id ≠ []) :
    assembleTx instructions = .ok (instructions.filterMap id) ∧
    (∀ network : Network α, sendInstructions network instructions =
      handleTxResult (network (instructions.filterMap id))) ∧
    (∀ a b : α, ([none, some a, none, some b] : List (Option α)).filterMap id
      = [a, b]) := by
  have ha : assembleTx instructions = .ok (instructions.filterMap id) := by
    simp [assembleTx, List.isEmpty_eq_false.mpr h]
  refine ⟨ha, fun network => ?_, fun a b => rfl⟩
  unfold sendInstructions
  rw [ha]

theorem sendInstructions_order_witness :
    assembleTx ([none, some 1, none, some 2] : List (Option Nat)) = .ok [1, 2] :=
  (sendInstructions_order [none, some 1, none, some 2] (by decide)).1

/-- C7 (amended): when the network collaborator fails, `sendInstructions`
rethrows the error with the log summary appended to the original message
when one exists and is not already contained in it, rethrows it untouched
when the summary already occurs in the message or when no log line matches,
and in every case the original message is a prefix of the surfaced message —
annotated, never replaced. -/
theorem sendInstructions_annotate {α : Type} (network : Network α)
    (instructions : List (Option α)) (err : JsError)
    (h : instructions.filterMap id ≠ [])
    (hfail : network (instructions.filterMap id) = .error err) :
    (∀ s, formatTxLogSummary err.logs = some s →
      jsIncludes err.message s = false →
      sendInstructions network instructions =
        .error ⟨err.message ++ " | " ++ s, err.logs⟩) ∧
    (∀ s, formatTxLogSummary err.logs = some s →
      jsIncludes err.message s = true →
      sendInstructions network instructions = .error err) ∧
    (formatTxLogSummary err.logs = none →
      sendInstructions network instructions = .error err) ∧
    (∀ e, sendInstructions network instructions = .error e →
      err.message.data <+: e.message.data) := by
  have ha : assembleTx instructions = .ok (instructions.filterMap id) := by
    simp [assembleTx, List.isEmpty_eq_false.mpr h]
  have hsend : sendInstructions network instructions =
      .error (annotateTxError err) := by
    unfold sendInstructions
    rw [ha]
    show handleTxResult (network (instructions.filterMap id)) = _
    rw [hfail]
    rfl
  refine ⟨?_, ?_, ?_, ?_⟩
  · intro s hs hinc
    rw [hsend]
    simp [annotateTxError, hs, hinc]
  · intro s hs hinc
    rw [hsend]
    simp [annotateTxError, hs, hinc]
  · intro hnone
    rw [hsend]
    simp [annotateTxError, hnone]
  · intro e he
    rw [hsend] at he
    injection he with he2
    rw [← he2]
    rcases hfs : formatTxLogSummary err.logs with _ | s
    · simp [annotateTxError, hfs]
    · by_cases hin : jsIncludes err.message s = true
      · simp [annotateTxError, hfs, hin]
      · rw [Bool.not_eq_true] at hin
        simp only [annotateTxError, hfs, hin, Bool.false_eq_true, if_false]
        refine ⟨(" | " : String).data ++ s.data, ?_⟩
        simp [String.data_append]

theorem sendInstructions_annotate_witness :
    sendInstructions
        (fun _ => .error ⟨"boom", some ["Program log: Instruction: Supply",
          "AnchorError thrown in program"]⟩)
        ([some 1] : List (Option Nat)) =
      .error ⟨"boom | Instruction: Supply | AnchorError thrown in program",
        some ["Program log: Instruction: Supply",
          "AnchorError thrown in program"]⟩ :=
  (sendInstructions_annotate
      (fun _ => .error ⟨"boom", some ["Program log: Instruction: Supply",
        "AnchorError thrown in program"]⟩)
      [some 1]
      ⟨"boom", some ["Program log: Instruction: Supply",
        "AnchorError thrown in program"]⟩
      (by decide) rfl).1
    "Instruction: Supply | AnchorError thrown in program" rfl rfl

/-- C7 counterexample: when the original error message already contains the
log summary, `sendInstructions` rethrows the error with its message
unchanged even though the logs contain a line naming the executing
instruction — the summary is not appended, contradicting the claim's
unconditional "appends". -/
theorem sendInstructions_annotate_counterexample :
    sendInstructions
        (fun _ => .error ⟨"Instruction: Supply",
          some ["Program log: Instruction: Supply"]⟩)
        ([some 1] : List (Option Nat)) =
      .error ⟨"Instruction: Supply", some ["Program log: Instruction: Supply"]⟩ ∧
    formatTxLogSummary (some ["Program log: Instruction: Supply"]) =
      some "Instruction: Supply" ∧
    ("Instruction: Supply" : String) ≠
      "Instruction: Supply" ++ " | " ++ "Instruction: Supply" :=
  ⟨rfl, rfl, by decide⟩

theorem getOrCreateAtaIx_ok (connection : Chain) (pda : Derivations)
    (payer owner mint tpid : PubKey)
    (ht : getTokenProgramId connection mint = .ok tpid) :
    getOrCreateAtaIx connection pda payer owner mint =
      match connection (pda.ata mint owner tpid) with
      | some _ => .ok ⟨pda.ata mint owner tpid, tpid, none⟩
      | none => .ok ⟨pda.ata mint owner tpid, tpid,
          some (.createAta payer (pda.ata mint owner tpid) owner mint tpid)⟩ := by
  unfold getOrCreateAtaIx
  rw [ht]
  rfl

theorem getOrCreateAtaIx_err (connection : Chain) (pda : Derivations)
    (payer owner mint : PubKey) (h : connection mint = none) :
    getOrCreateAtaIx connection pda payer owner mint =
      .error ⟨"Mint account not found", none⟩ := by
  unfold getOrCreateAtaIx getTokenProgramId
  rw [h]
  rfl

/-- C6: `getOrCreateAtaIx` fails exactly when the mint account is absent;
when the mint exists it returns the derived address and token program id,
together with a creation instruction parameterized by (payer, address,
owner, mint, tokenProgramId) exactly when no account exists at the derived
address, and with no instruction when one does. -/
theorem getOrCreateAtaIx_spec (connection : Chain) (pda : Derivations)
    (payer owner mint : PubKey) :
    ((∃ e, getOrCreateAtaIx connection pda payer owner mint = .error e) ↔
      connection mint = none) ∧
    (∀ tpid, getTokenProgramId connection mint = .ok tpid →
      (connection (pda.ata mint owner tpid) = none →
        getOrCreateAtaIx connection pda payer owner mint =
          .ok ⟨pda.ata mint owner tpid, tpid,
            some (.createAta payer (pda.ata mint owner tpid) owner mint tpid)⟩) ∧
      (∀ a, connection (pda.ata mint owner tpid) = some a →
        getOrCreateAtaIx connection pda payer owner mint =
          .ok ⟨pda.ata mint owner tpid, tpid, none⟩)) := by
  constructor
  · constructor
    · rintro ⟨e, he⟩
      rcases hmint : connection mint with _ | info
      · rfl
      · exfalso
        have ht : getTokenProgramId connection mint =
            .ok (if info.owner = TOKEN_2022_PROGRAM_ID then TOKEN_2022_PROGRAM_ID
              else TOKEN_PROGRAM_ID) := by
          unfold getTokenProgramId
          rw [hmint]
          show (if info.owner = TOKEN_2022_PROGRAM_ID
              then (Except.ok TOKEN_2022_PROGRAM_ID : Except JsError PubKey)
              else Except.ok TOKEN_PROGRAM_ID) = _
          by_cases h2 : info.owner = TOKEN_2022_PROGRAM_ID
          · rw [if_pos h2, if_pos h2]
          · rw [if_neg h2, if_neg h2]
        rw [getOrCreateAtaIx_ok connection pda payer owner mint _ ht] at he
        rcases hata : connection (pda.ata mint owner
            (if info.owner = TOKEN_2022_PROGRAM_ID then TOKEN_2022_PROGRAM_ID
              else TOKEN_PROGRAM_ID)) with _ | a <;>
          rw [hata] at he <;> exact Except.noConfusion he
    · intro hmint
      exact ⟨_, getOrCreateAtaIx_err connection pda payer owner mint hmint⟩
  · intro tpid ht
    constructor
    · intro hata
      rw [getOrCreateAtaIx_ok connection pda payer owner mint tpid ht, hata]
    · intro a hata
      rw [getOrCreateAtaIx_ok connection pda payer owner mint tpid ht, hata]

theorem getOrCreateAtaIx_spec_witness :
    getOrCreateAtaIx (fun k => if k = ⟨10⟩ then some ⟨⟨1⟩⟩ else none)
        ⟨fun _ _ _ => ⟨20⟩, fun _ _ => ⟨21⟩, ⟨22⟩, fun _ => ⟨23⟩⟩ ⟨11⟩ ⟨12⟩ ⟨10⟩ =
      .ok ⟨⟨20⟩, TOKEN_PROGRAM_ID,
        some (.createAta ⟨11⟩ ⟨20⟩ ⟨12⟩ ⟨10⟩ TOKEN_PROGRAM_ID)⟩ :=
  ((getOrCreateAtaIx_spec (fun k => if k = ⟨10⟩ then some ⟨⟨1⟩⟩ else none)
      ⟨fun _ _ _ => ⟨20⟩, fun _ _ => ⟨21⟩, ⟨22⟩, fun _ => ⟨23⟩⟩ ⟨11⟩ ⟨12⟩
      ⟨10⟩).2 TOKEN_PROGRAM_ID rfl).1 rfl

/-- C10: for an existing mint account, `getTokenProgramId` returns the
Token-2022 program id exactly when the account's owner is that id, and the
classic token program id for every other owner — token program or not — and
it never fails. -/
theorem getTokenProgramId_spec (connection : Chain) (mint : PubKey)
    (info : AccountInfo) (h : connection mint = some info) :
    (getTokenProgramId connection mint = .ok TOKEN_2022_PROGRAM_ID ↔
      info.owner = TOKEN_2022_PROGRAM_ID) ∧
    (info.owner ≠ TOKEN_2022_PROGRAM_ID →
      getTokenProgramId connection mint = .ok TOKEN_PROGRAM_ID) ∧
    (∃ p, getTokenProgramId connection mint = .ok p) := by
  have hbase : getTokenProgramId connection mint =
      (if info.owner = TOKEN_2022_PROGRAM_ID then .ok TOKEN_2022_PROGRAM_ID
        else .ok TOKEN_PROGRAM_ID) := by
    unfold getTokenProgramId
    rw [h]
  by_cases ho : info.owner = TOKEN_2022_PROGRAM_ID
  · rw [hbase, if_pos ho]
    exact ⟨⟨fun _ => ho, fun _ => rfl⟩, fun hn => absurd ho hn, ⟨_, rfl⟩⟩
  · rw [hbase, if_neg ho]
    refine ⟨⟨fun he => ?_, fun hh => absurd hh ho⟩, fun _ => rfl, ⟨_, rfl⟩⟩
    injection he with he2
    exact absurd he2 (by decide)

theorem getTokenProgramId_spec_witness :
    getTokenProgramId (fun _ => some ⟨TOKEN_2022_PROGRAM_ID⟩) ⟨10⟩ =
      .ok TOKEN_2022_PROGRAM_ID :=
  ((getTokenProgramId_spec (fun _ => some ⟨TOKEN_2022_PROGRAM_ID⟩) ⟨10⟩
      ⟨TOKEN_2022_PROGRAM_ID⟩ rfl).1).mpr rfl

/-- C2: `parseTokenAmount` returns 0 when the input trims to the empty
string; on a trimmed numeral with whole part `w` and fractional part `f`
it returns `w * 10^d` plus `f` right-padded with zeros and truncated to its
first `d` digits read as an integer — truncated, never rounded; in
particular `parseTokenAmount "1.5" 6 = 1500000`. -/
theorem parseTokenAmount_spec (s : String) (d : Nat) :
    (jsTrim s.data = [] → parseTokenAmount s d = .ok 0) ∧
    (∀ w f, TrimsTo s w f →
      parseTokenAmount s d =
        .ok (digitsToNat w * 10 ^ d +
          digitsToNat ((f ++ List.replicate (d - f.length) '0').take d))) ∧
    parseTokenAmount "1.5" 6 = .ok 1500000 := by
  refine ⟨?_, ?_, rfl⟩
  · intro h
    simp [parseTokenAmount, h]
  · intro w f h
    have := parseTokenAmount_eval s w f d h
    simpa [padEnd] using this

theorem parseTokenAmount_spec_witness :
    parseTokenAmount "007.25" 3 =
      .ok (digitsToNat ['0', '0', '7'] * 10 ^ 3 +
        digitsToNat ((['2', '5'] ++
          List.replicate (3 - (['2', '5'] : List Char).length) '0').take 3)) :=
  (parseTokenAmount_spec "007.25" 3).2.1 ['0', '0', '7'] ['2', '5'] (by decide)

/-- C8: every non-empty trimmed input outside `^\d+(\.\d+)?$` makes
`parseTokenAmount` fail with the invalid-format error (negative numbers,
exponent notation and plain text included), every trimmed input outside
`^\d+$` makes `parseIntegerAmount` fail with its invalid-format error, and
no input is ever clamped. -/
theorem parse_reject_spec :
    (∀ s d, jsTrim s.data ≠ [] → ¬ DecimalShape (jsTrim s.data) →
      parseTokenAmount s d = .error ⟨"Invalid amount format", none⟩) ∧
    (∀ s, ¬ IntegerShape (jsTrim s.data) →
      parseIntegerAmount s = .error ⟨"Invalid integer amount", none⟩) ∧
    (∀ d, parseTokenAmount "abc" d = .error ⟨"Invalid amount format", none⟩) ∧
    (∀ d, parseTokenAmount "-1.5" d = .error ⟨"Invalid amount format", none⟩) ∧
    (∀ d, parseTokenAmount "1e5" d = .error ⟨"Invalid amount format", none⟩) ∧
    parseIntegerAmount "1.5" = .error ⟨"Invalid integer amount", none⟩ := by
  have hdec : ∀ s d, jsTrim s.data ≠ [] → ¬ DecimalShape (jsTrim s.data) →
      parseTokenAmount s d = .error ⟨"Invalid amount format", none⟩ := by
    intro s d hne hshape
    apply parseTokenAmount_invalid s d hne
    exact Bool.eq_false_iff.mpr (fun hb => hshape ((matchesDecimal_iff _).mp hb))
  refine ⟨hdec, ?_, ?_, ?_, ?_, rfl⟩
  · intro s hshape
    apply parseIntegerAmount_invalid s
    exact Bool.eq_false_iff.mpr (fun hb => hshape ((matchesInteger_iff _).mp hb))
  · intro d
    apply hdec "abc" d (by decide)
    intro hshape
    have := (matchesDecimal_iff (jsTrim "abc".data)).mpr hshape
    exact absurd this (by decide)
  · intro d
    apply hdec "-1.5" d (by decide)
    intro hshape
    have := (matchesDecimal_iff (jsTrim "-1.5".data)).mpr hshape
    exact absurd this (by decide)
  · intro d
    apply hdec "1e5" d (by decide)
    intro hshape
    have := (matchesDecimal_iff (jsTrim "1e5".data)).mpr hshape
    exact absurd this (by decide)

theorem parse_reject_spec_witness :
    parseTokenAmount "abc" 2 = .error ⟨"Invalid amount format", none⟩ :=
  parse_reject_spec.2.2.1 2

/-- C9: on the truncated-precision domain `parseTokenAmount` identifies two
valid numerals exactly when they denote the same rational value after
truncation to `d` fractional digits, with `parseTokenAmount "1.5" 6 =
1500000` as a witness. -/
theorem parseTokenAmount_trunc_injective (d : Nat) (s1 s2 : String)
    (w1 f1 w2 f2 : List Char)
    (h1 : TrimsTo s1 w1 f1) (h2 : TrimsTo s2 w2 f2) :
    (parseTokenAmount s1 d = parseTokenAmount s2 d ↔
      truncValue d (decValue w1 f1) = truncValue d (decValue w2 f2)) ∧
    parseTokenAmount "1.5" 6 = .ok 1500000 := by
  refine ⟨?_, rfl⟩
  rw [parseTokenAmount_trunc s1 w1 f1 d h1, parseTokenAmount_trunc s2 w2 f2 d h2]
  constructor
  · intro hv
    have hxy : (truncValue d (decValue w1 f1)).toNat =
        (truncValue d (decValue w2 f2)).toNat := Except.ok.inj hv
    have hn1 : 0 ≤ truncValue d (decValue w1 f1) := by
      rw [truncValue_decValue]
      exact Int.natCast_nonneg _
    have hn2 : 0 ≤ truncValue d (decValue w2 f2) := by
      rw [truncValue_decValue]
      exact Int.natCast_nonneg _
    omega
  · intro hv
    rw [hv]

/-- C3: supplying "100.00" of a 6-decimal loan asset: when the user has no
position and no associated token account, the supply flow assembles and
submits [create-associated-token-account, create-position,
supply(marketId, 100000000, 0)] in exactly that order; when the token
account already exists the create-ATA element is omitted and the rest of
the order is unchanged. -/
theorem handleSupply_scenario (connection : Chain) (pda : Derivations)
    (wallet loanMint : PubKey) (marketId : List Nat) (marketKey : PubKey)
    (tpid : PubKey)
    (htok : getTokenProgramId connection loanMint = .ok tpid)
    (hpos : connection (pda.position marketId wallet) = none) :
    (connection (pda.ata loanMint wallet tpid) = none →
      handleSupplyIxs connection pda wallet "100.00" loanMint 6 marketId
          marketKey =
        some (.ok
          [some (.createAta wallet (pda.ata loanMint wallet tpid) wallet
             loanMint tpid),
           some (.createPosition marketId wallet wallet marketKey
             (pda.position marketId wallet) systemProgramId),
           some (.supply marketId 100000000 0 wallet pda.protocolState marketKey
             (pda.position marketId wallet) wallet (pda.ata loanMint wallet tpid)
             (pda.loanVault marketId) loanMint tpid)]) ∧
      (∀ network : Network Instr,
        handleSupply network connection pda wallet "100.00" loanMint 6 marketId
            marketKey =
          some (handleTxResult (network
            [.createAta wallet (pda.ata loanMint wallet tpid) wallet loanMint
               tpid,
             .createPosition marketId wallet wallet marketKey
               (pda.position marketId wallet) systemProgramId,
             .supply marketId 100000000 0 wallet pda.protocolState marketKey
               (pda.position marketId wallet) wallet (pda.ata loanMint wallet tpid)
               (pda.loanVault marketId) loanMint tpid])))) ∧
    (∀ a, connection (pda.ata loanMint wallet tpid) = some a →
      handleSupplyIxs connection pda wallet "100.00" loanMint 6 marketId
          marketKey =
        some (.ok
          [none,
           some (.createPosition marketId wallet wallet marketKey
             (pda.position marketId wallet) systemProgramId),
           some (.supply marketId 100000000 0 wallet pda.protocolState marketKey
             (pda.position marketId wallet) wallet (pda.ata loanMint wallet tpid)
             (pda.loanVault marketId) loanMint tpid)]) ∧
      (∀ network : Network Instr,
        handleSupply network connection pda wallet "100.00" loanMint 6 marketId
            marketKey =
          some (handleTxResult (network
            [.createPosition marketId wallet wallet marketKey
               (pda.position marketId wallet) systemProgramId,
             .supply marketId 100000000 0 wallet pda.protocolState marketKey
               (pda.position marketId wallet) wallet (pda.ata loanMint wallet tpid)
               (pda.loanVault marketId) loanMint tpid])))) := by
  have hposres : ensurePositionIx connection pda marketId marketKey wallet wallet =
      ⟨pda.position marketId wallet,
        some (.createPosition marketId wallet wallet marketKey
          (pda.position marketId wallet) systemProgramId)⟩ := by
    simp [ensurePositionIx, hpos]
  have hataok := getOrCreateAtaIx_ok connection pda wallet wallet loanMint tpid htok
  constructor
  · intro hata
    rw [hata] at hataok
    have hixs : handleSupplyIxs connection pda wallet "100.00" loanMint 6
        marketId marketKey =
        some (.ok
          [some (.createAta wallet (pda.ata loanMint wallet tpid) wallet
             loanMint tpid),
           some (.createPosition marketId wallet wallet marketKey
             (pda.position marketId wallet) systemProgramId),
           some (.supply marketId 100000000 0 wallet pda.protocolState marketKey
             (pda.position marketId wallet) wallet (pda.ata loanMint wallet tpid)
             (pda.loanVault marketId) loanMint tpid)]) := by
      unfold handleSupplyIxs
      rw [if_neg (by decide : ¬("100.00" : String) = "")]
      rw [hataok, hposres]
      rfl
    refine ⟨hixs, fun network => ?_⟩
    unfold handleSupply
    rw [hixs]
    rfl
  · intro a hata
    rw [hata] at hataok
    have hixs : handleSupplyIxs connection pda wallet "100.00" loanMint 6
        marketId marketKey =
        some (.ok
          [none,
           some (.createPosition marketId wallet wallet marketKey
             (pda.position marketId wallet) systemProgramId),
           some (.supply marketId 100000000 0 wallet pda.protocolState marketKey
             (pda.position marketId wallet) wallet (pda.ata loanMint wallet tpid)
             (pda.loanVault marketId) loanMint tpid)]) := by
      unfold handleSupplyIxs
      rw [if_neg (by decide : ¬("100.00" : String) = "")]
      rw [hataok, hposres]
      rfl
    refine ⟨hixs, fun network => ?_⟩
    unfold handleSupply
    rw [hixs]
    rfl

theorem handleSupply_scenario_witness :
    handleSupplyIxs (fun k => if k = ⟨10⟩ then some ⟨⟨1⟩⟩ else none)
        ⟨fun _ _ _ => ⟨20⟩, fun _ _ => ⟨21⟩, ⟨22⟩, fun _ => ⟨23⟩⟩
        ⟨11⟩ "100.00" ⟨10⟩ 6 [1, 2] ⟨30⟩ =
      some (.ok
        [some (.createAta ⟨11⟩ ⟨20⟩ ⟨11⟩ ⟨10⟩ TOKEN_PROGRAM_ID),
         some (.createPosition [1, 2] ⟨11⟩ ⟨11⟩ ⟨30⟩ ⟨21⟩ systemProgramId),
         some (.supply [1, 2] 100000000 0 ⟨11⟩ ⟨22⟩ ⟨30⟩ ⟨21⟩ ⟨11⟩ ⟨20⟩ ⟨23⟩ ⟨10⟩
           TOKEN_PROGRAM_ID)]) :=
  ((handleSupply_scenario (fun k => if k = ⟨10⟩ then some ⟨⟨1⟩⟩ else none)
      ⟨fun _ _ _ => ⟨20⟩, fun _ _ => ⟨21⟩, ⟨22⟩, fun _ => ⟨23⟩⟩
      ⟨11⟩ ⟨10⟩ [1, 2] ⟨30⟩ TOKEN_PROGRAM_ID rfl rfl).1 rfl).1

theorem parseTokenAmount_trunc_injective_witness :
    (parseTokenAmount "1.50" 6 = parseTokenAmount "1.5000009" 6 ↔
      truncValue 6 (decValue ['1'] ['5', '0']) =
        truncValue 6 (decValue ['1'] ['5', '0', '0', '0', '0', '0', '9'])) ∧
    parseTokenAmount "1.5" 6 = .ok 1500000 :=
  parseTokenAmount_trunc_injective 6 "1.50" "1.5000009" ['1'] ['5', '0']
    ['1'] ['5', '0', '0', '0', '0', '0', '9'] (by decide) (by decide)

end Morpho
